import Mathlib

/-!
Shallow embedding of the `data-toolbox` repository
(`src/toolbox/tasks/aidungeon_text_adventure.py` and
`src/toolbox/tasks/rp_forums_writing.py`) over `List Char`, together with
proofs about the claims of the specification.

Python strings are modelled as `List Char`; Python's `-1`-returning `find`
is modelled with `Option Nat`; Python `assert` failures are modelled with
`Except Unit`.  External collaborators (the dataset loaders, the
`markdownify` HTML-to-Markdown converter, the prompt generator and the
random sampler) are parameters of the embedded pipelines.
-/

namespace Toolbox

/-- Characters of a string literal, as a list. -/
def str (s : String) : List Char := s.data

/-- Whitespace as recognized by Python `str.split` / `str.strip`
(ASCII whitespace plus the common further cases; the corpus text relevant
to the claims is ASCII). -/
def isPySpace (c : Char) : Bool :=
  c = ' ' || c = '\t' || c = '\n' || c = '\r' || c = '\x0b' || c = '\x0c' ||
  c = '\x1c' || c = '\x1d' || c = '\x1e' || c = '\x1f' || c = '\x85' || c = ' '

/-- Line-break characters of Python `str.splitlines`. -/
def isPyLineBreak (c : Char) : Bool :=
  c = '\n' || c = '\r' || c = '\x0b' || c = '\x0c' || c = '\x1c' || c = '\x1d' ||
  c = '\x1e' || c = '\x85' || c = ' ' || c = ' '

/-- Word characters of Python's regex `\w` (ASCII range; the corpus text
relevant to the claims is ASCII). -/
def isWordChar (c : Char) : Bool := c.isAlphanum || c = '_'

/-- Python's `sub in s` substring test. -/
def containsL (pat : List Char) : List Char → Bool
  | [] => pat.isEmpty
  | c :: rest => pat.isPrefixOf (c :: rest) || containsL pat rest

/-- Helper for `replaceAllL`: scan for the non-empty pattern `pat`,
replacing each non-overlapping leftmost occurrence with `rep`.  A positive
`skip` means the scanner is still inside the tail of a replaced occurrence
(the first character of an occurrence is consumed when the match is found,
the remaining `pat.length - 1` are consumed by the counter), which keeps
the recursion structural. -/
def replaceSkip (pat rep : List Char) : Nat → List Char → List Char
  | skip + 1, _ :: rest => replaceSkip pat rep skip rest
  | _ + 1, [] => []
  | 0, [] => []
  | 0, c :: rest =>
      if pat.isPrefixOf (c :: rest) then
        rep ++ replaceSkip pat rep (pat.length - 1) rest
      else
        c :: replaceSkip pat rep 0 rest

/-- Python `s.replace(pat, rep)`.  (Python raises no error on an empty
pattern but the source never calls `replace` with one; modelled as the
identity in that unused case.) -/
def replaceAllL (pat rep s : List Char) : List Char :=
  match pat with
  | [] => s
  | p :: ps => replaceSkip (p :: ps) rep 0 s

/-- Word counting state machine behind `len(s.split())`:
`inWord` records whether the previous character was part of a word. -/
def wcAux : Bool → List Char → Nat
  | _, [] => 0
  | inWord, c :: rest =>
      if isPySpace c then wcAux false rest
      else (if inWord then 0 else 1) + wcAux true rest

/-- `len(s.split())`: number of maximal whitespace-free runs. -/
def wordCount (s : List Char) : Nat := wcAux false s

/-- Helper for `splitlinesL`; `acc` holds the current line reversed. -/
def splitlinesAux (acc : List Char) : List Char → List (List Char)
  | [] => [acc.reverse]
  | '\r' :: '\n' :: rest =>
      acc.reverse :: (if rest.isEmpty then [] else splitlinesAux [] rest)
  | c :: rest =>
      if isPyLineBreak c then
        acc.reverse :: (if rest.isEmpty then [] else splitlinesAux [] rest)
      else splitlinesAux (c :: acc) rest

/-- Python `s.splitlines()` (no trailing empty line; `""` gives `[]`). -/
def splitlinesL : List Char → List (List Char)
  | [] => []
  | c :: rest => splitlinesAux [] (c :: rest)

/-- Python `s.rstrip()`. -/
def rstripL (s : List Char) : List Char := (s.reverse.dropWhile isPySpace).reverse

/-- Python `s.strip()`. -/
def stripL (s : List Char) : List Char := rstripL (s.dropWhile isPySpace)

/-- Python `sep.join(xs)`. -/
def joinL (sep : List Char) : List (List Char) → List Char
  | [] => []
  | [x] => x
  | x :: y :: rest => x ++ sep ++ joinL sep (y :: rest)

/-- Helper for `splitOnL`: split on the non-empty delimiter `pat`; `acc`
holds the current piece reversed, a positive `skip` means the scanner is
still inside the tail of a matched delimiter. -/
def splitOnGo (pat : List Char) : Nat → List Char → List Char → List (List Char)
  | skip + 1, acc, _ :: rest => splitOnGo pat skip acc rest
  | _ + 1, acc, [] => [acc.reverse]
  | 0, acc, [] => [acc.reverse]
  | 0, acc, c :: rest =>
      if pat.isPrefixOf (c :: rest) then
        acc.reverse :: splitOnGo pat (pat.length - 1) [] rest
      else
        splitOnGo pat 0 (c :: acc) rest

/-- Python `s.split(delim)` for a string delimiter.  (Python raises
`ValueError` on an empty separator; the source always passes a non-empty
one; modelled as no split in that unused case.) -/
def splitOnL (delim s : List Char) : List (List Char) :=
  match delim with
  | [] => [s]
  | p :: ps => splitOnGo (p :: ps) 0 [] s

/-- Index of the leftmost occurrence of `pat`, if any (Python `s.find`). -/
def findPat (pat : List Char) : List Char → Option Nat
  | [] => if pat.isEmpty then some 0 else none
  | c :: rest =>
      if pat.isPrefixOf (c :: rest) then some 0
      else (findPat pat rest).map (· + 1)

/-- Python `s.find(pat, start)` (searching indices `≥ start`). -/
def findFromIdx (pat s : List Char) (start : Nat) : Option Nat :=
  (findPat pat (s.drop start)).map (· + start)

/-- Python `s.lower()` (ASCII case mapping). -/
def lowerL (s : List Char) : List Char := s.map Char.toLower

/-! ## The shared Episode / Turn data model

Modelled from the spec: `toolbox.core.models` is not under `src/`; the spec
describes a `Turn` as an utterance plus a kind (one of SYSTEM, USER, MODEL)
and an `Episode` as an identifier plus an ordered list of turns. -/

inductive TurnKind
  | SYSTEM
  | USER
  | MODEL
deriving DecidableEq

structure Turn where
  utterance : List Char
  kind : TurnKind
deriving DecidableEq

structure Episode where
  turns : List Turn
  identifier : List Char
deriving DecidableEq

/-! ## Adventure pipeline (`aidungeon_text_adventure.py`) -/

def startOfTextTok : List Char := str "<|startoftext|>"

def endOfTextTok : List Char := str "<|endoftext|>"

/-- The `"> "` user-input marker. -/
def userMarker : List Char := str "> "

/-- `_MIN_WORD_COUNT_PER_MODEL_TURN` from the source. -/
def MIN_WORD_COUNT_PER_MODEL_TURN : Nat := 300

/-- Newline-run scanner shared by the two `re.sub` calls that collapse
newline runs: `run` counts the consecutive newlines just before the scan
position, and every newline preceded by two newlines is dropped.  A
maximal run of `k` newlines therefore becomes `min k 2` newlines: runs of
1 or 2 are unchanged and runs of 3 or more become exactly 2, which is
what both `re.sub(r"\n{3,}", "\n\n", s)` (no match on runs below 3,
longer runs replaced by two newlines) and `re.sub("\n{2,}", "\n\n", s)`
(runs of exactly 2 replaced by themselves, longer runs replaced by two
newlines) produce. -/
def collapseNewlineRunsAux (run : Nat) : List Char → List Char
  | [] => []
  | '\n' :: rest =>
      if 2 ≤ run then collapseNewlineRunsAux run rest
      else '\n' :: collapseNewlineRunsAux (run + 1) rest
  | c :: rest => c :: collapseNewlineRunsAux 0 rest

/-- `re.sub(r"\n{3,}", "\n\n", s)` (line 67 of the adventure source). -/
def collapseNewlines3 (s : List Char) : List Char := collapseNewlineRunsAux 0 s

/-- Lines 59-60 of the source: strip the start/end-of-text tokens. -/
def lineSansTokens (line : List Char) : List Char :=
  replaceAllL endOfTextTok [] (replaceAllL startOfTextTok [] line)

/-- The line loop of `_convert_story_to_turns`; `cur` is `current_turn` and
`wc` is `current_word_count`. -/
def convertAux (cur : List Char) (wc : Nat) : List (List Char) → List Turn
  | [] => []
  | line :: rest =>
      if userMarker.isPrefixOf line then
        let utterance := stripL (replaceAllL userMarker [] line)
        if utterance = [] then convertAux cur wc rest
        else ⟨utterance, .USER⟩ :: convertAux cur wc rest
      else
        let line2 := lineSansTokens line
        let cur2 := cur ++ stripL line2 ++ ['\n']
        let wc2 := wc + wordCount line2
        if MIN_WORD_COUNT_PER_MODEL_TURN ≤ wc2 then
          ⟨collapseNewlines3 cur2, .MODEL⟩ :: convertAux [] 0 rest
        else convertAux cur2 wc2 rest

/-- `_convert_story_to_turns`. -/
def convertStoryToTurns (story : List Char) : List Turn :=
  convertAux [] 0 (splitlinesL story)

/-- The generator loop of `AiDungeonTextAdventureTask.__iter__`.
`sysPrompt idx` is the system prompt sampled for the `idx`-th episode
(`random.choice(_SYSTEM_PROMPTS)`, modelled as a parameter). -/
def aidungeonIterAux (sysPrompt : Nat → List Char) (idx : Nat) (cur : List Char) :
    List (List Char) → List Episode
  | [] => []
  | line :: rest =>
      if startOfTextTok.isPrefixOf line then
        ⟨⟨sysPrompt idx, .SYSTEM⟩ :: convertStoryToTurns cur,
          str "ai-dungeon-" ++ (Nat.repr idx).data⟩
          :: aidungeonIterAux sysPrompt (idx + 1) line rest
      else
        aidungeonIterAux sysPrompt idx (cur ++ line) rest

/-- `AiDungeonTextAdventureTask.__iter__` over a finite line source. -/
def aidungeonIter (sysPrompt : Nat → List Char) (lines : List (List Char)) : List Episode :=
  aidungeonIterAux sysPrompt 0 [] lines

/-! ## Forum pipeline (`rp_forums_writing.py`) -/

/-- The chunk-merging loop of `_split_message`: `cur` is
`reconstructed_messages[-1]`, the remaining elements are still to be
considered.  A chunk is appended as a fresh message when merging it would
push the running word count above the target, otherwise it is merged into
the current message with the delimiter restored. -/
def mergeChunks (target : Nat) (delim : List Char) (cur : List Char) :
    List (List Char) → List (List Char)
  | [] => [cur]
  | m :: rest =>
      if target < wordCount cur + wordCount m then
        cur :: mergeChunks target delim m rest
      else
        mergeChunks target delim (cur ++ delim ++ m) rest

/-- `_split_message`. -/
def splitMessage (originalMessage : List Char) (targetWordCount : Nat)
    (delim : List Char) : List (List Char) :=
  match splitOnL delim originalMessage with
  | [] => []
  | m :: rest => mergeChunks targetWordCount delim m rest

/-- `re.sub(r'\b(\.\.\.?)\b', '... ', s)`: two or three dots directly
between two word characters become `"... "`.  `prevIsWord` records whether
the character before the scan position is a word character (the `\b`
context). -/
def fixDotsScan (prevIsWord : Bool) : List Char → List Char
  | '.' :: '.' :: '.' :: c :: rest =>
      if prevIsWord && isWordChar c then
        '.' :: '.' :: '.' :: ' ' :: fixDotsScan false (c :: rest)
      else
        '.' :: fixDotsScan false ('.' :: '.' :: c :: rest)
  | '.' :: '.' :: c :: rest =>
      if prevIsWord && isWordChar c then
        '.' :: '.' :: '.' :: ' ' :: fixDotsScan false (c :: rest)
      else
        '.' :: fixDotsScan false ('.' :: c :: rest)
  | c :: rest => c :: fixDotsScan (isWordChar c) rest
  | [] => []

/-- `re.sub(r"(\S)(…)(\S)", "\\1\\2 \\3", s)`: insert a space after an
ellipsis character that sits directly between two non-space characters. -/
def fixEllipsisSpacing : List Char → List Char
  | a :: '…' :: b :: rest =>
      if !isPySpace a && !isPySpace b then
        a :: '…' :: ' ' :: b :: fixEllipsisSpacing rest
      else
        a :: fixEllipsisSpacing ('…' :: b :: rest)
  | c :: rest => c :: fixEllipsisSpacing rest
  | [] => []

/-- `_fix_style_and_encoding_issues`.  The mojibake literals are
`"â??"`, `"â?\u009D"` and `"\u009D"` (exact bytes of the
source). -/
def fixStyleAndEncodingIssues (originalMessage : List Char) : List Char :=
  let m := originalMessage
  let m := replaceAllL (str " .. ") (str "... ") m
  let m := replaceAllL (str " ... ") (str "... ") m
  let m := fixDotsScan false m
  let m := replaceAllL (str " . ") (str ". ") m
  let m := replaceAllL (str " , ") (str ", ") m
  let m := replaceAllL (str " ? ") (str "? ") m
  let m := replaceAllL (str " ! ") (str "! ") m
  let m := fixEllipsisSpacing m
  let m := replaceAllL ['â', '?', '?'] ['\''] m
  let m := replaceAllL ['â', '?', '\u009D'] ['\''] m
  let m := replaceAllL ['\u009D'] [' '] m
  m

/-- The scheme part `https?:\/\/` of the URL regex: the number of
characters it matches at the start of `s` (`https` is preferred by the
greedy `s?`). -/
def schemeLen (s : List Char) : Option Nat :=
  if (str "https://").isPrefixOf s then some 8
  else if (str "http://").isPrefixOf s then some 7
  else none

/-- Lazy extension of `.+?(\s|$)` after its first character: `acc`
characters are already consumed; a whitespace character is consumed by
`\s` and ends the match, the string end matches `$`.  Every newline is
whitespace, so the `\s` alternative fires before the dot could fail on a
newline. -/
def urlTailLen (acc : Nat) : List Char → Nat
  | [] => acc
  | c :: rest => if isPySpace c then acc + 1 else urlTailLen (acc + 1) rest

/-- The `.+?(\s|$)` part of the URL regex applied after the scheme: the
number of characters it matches.  The first character must be matched by
`.`, so it cannot be a newline and the part cannot be empty. -/
def urlAfterLen : List Char → Option Nat
  | [] => none
  | c :: rest => if c = '\n' then none else some (urlTailLen 1 rest)

/-- Length of the leftmost-anchored match of `https?:\/\/.+?(\s|$)` at the
start of `s`, if any. -/
def urlMatchLen (s : List Char) : Option Nat :=
  match schemeLen s with
  | none => none
  | some k => (urlAfterLen (s.drop k)).map (· + k)

/-- Scanner for `_remove_links`: a positive `skip` means the scanner is
inside the tail of a matched (deleted) URL. -/
def removeLinksGo : Nat → List Char → List Char
  | skip + 1, _ :: rest => removeLinksGo skip rest
  | _ + 1, [] => []
  | 0, [] => []
  | 0, c :: rest =>
      match urlMatchLen (c :: rest) with
      | some n => removeLinksGo (n - 1) rest
      | none => c :: removeLinksGo 0 rest

/-- `_remove_links`, i.e. `re.sub(r"https?:\/\/.+?(\s|$)", "", s)`:
scan left to right; at each position where a scheme and a lazily-extended
tail match, drop the whole match (including the consumed whitespace
character, if any) and continue after it. -/
def removeLinks (originalMessage : List Char) : List Char :=
  removeLinksGo 0 originalMessage

/-- `f"<{tag}"`. -/
def openTagPat (tag : List Char) : List Char := '<' :: tag

/-- `f"</{tag}>"`. -/
def closeTagPat (tag : List Char) : List Char := '<' :: '/' :: (tag ++ ['>'])

/-- The `while` loop of `_remove_html_tag`.  `cleaningPasses` mirrors the
source variable of the same name: the source initializes it to `0` and
checks `assert cleaning_passes < 4` but never increments it, so it is
threaded through unchanged.  `iters` instruments the embedding with the
number of removal passes actually performed.  The assert failure is
`.error ()`.  The `fuel` argument keeps the recursion structural; each
executed pass removes at least the non-empty closing tag (the closing tag
is searched from the opening index on, so the removed span is non-empty),
so starting the loop with `msg.length + 1` fuel never exhausts it. -/
def removeHtmlTagLoop (tag : List Char) :
    Nat → Nat → Nat → List Char → Except Unit (List Char × Nat)
  | cleaningPasses, iters, fuel + 1, msg =>
      if containsL (openTagPat tag) msg then
        if cleaningPasses < 4 then
          match findPat (openTagPat tag) msg with
          | none => .ok (msg, iters)
          | some startIdx =>
              match findFromIdx (closeTagPat tag) msg startIdx with
              | none => .ok (msg, iters)
              | some endIdx =>
                  removeHtmlTagLoop tag cleaningPasses (iters + 1) fuel
                    (msg.take startIdx ++ msg.drop (endIdx + (closeTagPat tag).length))
        else .error ()
      else .ok (msg, iters)
  | _, iters, 0, msg => .ok (msg, iters)

/-- `_remove_html_tag`. -/
def removeHtmlTag (message tag : List Char) : Except Unit (List Char) :=
  (removeHtmlTagLoop tag 0 0 (message.length + 1) message).map (·.1)

/-- `_remove_bad_html_tags`.  The `div` pass is guarded by a
`bbImageWrapper` test on the original message; an assert failure in any
pass propagates. -/
def removeBadHtmlTags (message : List Char) : Except Unit (List Char) :=
  match removeHtmlTag message (str "blockquote") with
  | .error e => .error e
  | .ok c1 =>
      match removeHtmlTag c1 (str "script") with
      | .error e => .error e
      | .ok c2 =>
          if containsL (str "bbImageWrapper") message then
            removeHtmlTag c2 (str "div")
          else
            .ok c2

/-- Lines 56-63 of `RpForumsWritingTask.__iter__`: the three cleaning
stages followed by the URL assertion.  `.error ()` is an assertion
failure. -/
def cleanForumMessage (message : List Char) : Except Unit (List Char) :=
  let m1 := fixStyleAndEncodingIssues message
  match removeBadHtmlTags m1 with
  | .error e => .error e
  | .ok m2 =>
      let m3 := removeLinks m2
      if containsL (str "http://") m3 || containsL (str "https://") m3 then
        .error ()
      else
        .ok m3

/-- `re.search(r'\b " \b', s)`: a space-quote-space run whose neighbours
on both sides are word characters (the `\b` context). -/
def hasFloatingQuote : List Char → Bool
  | c1 :: ' ' :: '"' :: ' ' :: c2 :: rest =>
      (isWordChar c1 && isWordChar c2) || hasFloatingQuote (' ' :: '"' :: ' ' :: c2 :: rest)
  | _ :: rest => hasFloatingQuote rest
  | [] => false

/-- `re.search(r'\S"\S', s)`. -/
def hasMushedQuote : List Char → Bool
  | a :: '"' :: b :: rest =>
      (!isPySpace a && !isPySpace b) || hasMushedQuote ('"' :: b :: rest)
  | _ :: rest => hasMushedQuote rest
  | [] => false

/-- `re.search(r'\S\(', s)`. -/
def hasMushedParenOpen : List Char → Bool
  | a :: '(' :: rest => !isPySpace a || hasMushedParenOpen ('(' :: rest)
  | _ :: rest => hasMushedParenOpen rest
  | [] => false

/-- `re.search(r'\)\S', s)`. -/
def hasMushedParenClose : List Char → Bool
  | ')' :: b :: rest => !isPySpace b || hasMushedParenClose (b :: rest)
  | _ :: rest => hasMushedParenClose rest
  | [] => false

/-- Zero-width `\b` right after a word character: the next character must
not be a word character (or the string ends). -/
def wordBoundaryAfter : List Char → Bool
  | [] => true
  | c :: _ => !isWordChar c

/-- The `('m|'ll)?\b` tail of `r"\bi('m|'ll)?\b"`, tried as the regex
engine does: group alternative `'m`, then `'ll`, then the empty group. -/
def lowercaseITail (rest : List Char) : Bool :=
  (match rest with
   | '\'' :: 'm' :: r => wordBoundaryAfter r
   | _ => false) ||
  (match rest with
   | '\'' :: 'l' :: 'l' :: r => wordBoundaryAfter r
   | _ => false) ||
  wordBoundaryAfter rest

/-- Scanner for `re.search(r"\bi('m|'ll)?\b", s)`; `prevIsWord` records the
word-ness of the previous character (the leading `\b` context). -/
def hasLowercaseIAux (prevIsWord : Bool) : List Char → Bool
  | 'i' :: rest => (!prevIsWord && lowercaseITail rest) || hasLowercaseIAux true rest
  | c :: rest => hasLowercaseIAux (isWordChar c) rest
  | [] => false

def hasLowercaseI (s : List Char) : Bool := hasLowercaseIAux false s

/-- The `\S+\)` tail of the Markdown-link regex: at least one non-space
character followed by a closing parenthesis (`tgtLen` counts the
non-space characters matched so far; both continuations of the
backtracking search are tried). -/
def linkTarget (tgtLen : Nat) : List Char → Bool
  | [] => false
  | c :: rest => (c = ')' && 1 ≤ tgtLen) || (!isPySpace c && linkTarget (tgtLen + 1) rest)

/-- The `.+\]\(` middle of the Markdown-link regex after the opening
bracket: `midLen` counts the characters matched by `.+` so far. -/
def linkMid (midLen : Nat) : List Char → Bool
  | ']' :: '(' :: rest =>
      (1 ≤ midLen && linkTarget 0 rest) || linkMid (midLen + 1) ('(' :: rest)
  | c :: rest => c ≠ '\n' && linkMid (midLen + 1) rest
  | [] => false

/-- `re.search(r"\[.+\]\(\S+\)", s)`. -/
def hasMarkdownLink : List Char → Bool
  | [] => false
  | c :: rest => (c = '[' && linkMid 0 rest) || hasMarkdownLink rest

/-- `_not_usable_as_training_label`. -/
def notUsableAsTrainingLabel (message : List Char) : Bool :=
  hasFloatingQuote message || hasMushedQuote message ||
  hasMushedParenOpen message || hasMushedParenClose message ||
  hasLowercaseI message || hasMarkdownLink message

/-- One line matching `_OOC_REGEX`, i.e. `^\((OOC: ?)?.+\)$`: the line
starts with `(`, ends with `)` and has at least one character in between.
(The optional `(OOC: ?)?` group is subsumed by `.+`: every line the
pattern accepts with the group present is also accepted with it empty,
and group-present matches need the same three-character minimum.) -/
def oocLine (line : List Char) : Bool :=
  match line with
  | '(' :: rest => 2 ≤ rest.length && rest.getLast? == some ')'
  | _ => false

/-- `re.MULTILINE` lines: `^`/`$` anchor only around `'\n'`. -/
def splitNL (s : List Char) : List (List Char) := splitOnL ['\n'] s

/-- `_seems_to_have_ooc_talk`. -/
def seemsToHaveOocTalk (message : List Char) : Bool :=
  (splitNL message).any oocLine

/-- `re.sub("\n{2,}", "\n\n", s)` (line 80 of the forum source); see
`collapseNewlineRunsAux` for why the shared newline-run scanner computes
this substitution too. -/
def collapseNewlines2 (s : List Char) : List Char := collapseNewlineRunsAux 0 s

/-- `_remove_trailing_whitespace_and_bad_lines`. -/
def removeTrailingWhitespaceAndBadLines (originalMessage : List Char) : List Char :=
  joinL ['\n'] (((splitlinesL originalMessage).map rstripL).filter
    (fun line => !((str "RE: ").isPrefixOf line || (str "**RE: ").isPrefixOf line)))

/-- One attempt of `re.search(r"([\w\d])(\*{1,2})([\w\d])", s)` anchored at
the start of `s`: the match length (3 or 4) if the pattern matches here.
`\*{1,2}` is greedy, so two asterisks are preferred; `[\w\d]` is `\w`
(the `\d` inside the class is redundant in the source pattern). -/
def emphAt : List Char → Option Nat
  | a :: '*' :: '*' :: b :: _ =>
      if isWordChar a && isWordChar b then some 4 else none
  | a :: '*' :: b :: _ =>
      if isWordChar a && isWordChar b then some 3 else none
  | _ => none

/-- Leftmost match of the emphasis regex: start position and length. -/
def findEmph : List Char → Option (Nat × Nat)
  | [] => none
  | c :: rest =>
      match emphAt (c :: rest) with
      | some l => some (0, l)
      | none => (findEmph rest).map fun pl => (pl.1 + 1, pl.2)

/-- `s[:n] + " " + s[n:]`. -/
def insertSpaceAt (n : Nat) (s : List Char) : List Char :=
  s.take n ++ ' ' :: s.drop n

/-- Measure for `_fix_markdown`: how many of the two adjacent pairs
word-then-asterisk / asterisk-then-word the pair `(c, d)` realizes. -/
def pairVal (c d : Char) : Nat :=
  (if isWordChar c && (d == '*') then 1 else 0) +
  (if (c == '*') && isWordChar d then 1 else 0)

/-- Total `pairVal` over all adjacent pairs of the string.  Each loop
iteration of `_fix_markdown` decreases this by exactly one. -/
def pairCount : List Char → Nat
  | c :: d :: rest => pairVal c d + pairCount (d :: rest)
  | _ => 0

theorem pairVal_space_right (c : Char) : pairVal c ' ' = 0 := by
  have h1 : (' ' == '*') = false := by decide
  have h2 : isWordChar ' ' = false := by decide
  simp [pairVal, h1, h2]

theorem pairVal_space_left (c : Char) : pairVal ' ' c = 0 := by
  have h1 : (' ' == '*') = false := by decide
  have h2 : isWordChar ' ' = false := by decide
  simp [pairVal, h1, h2]

theorem pairVal_word_star (a : Char) (ha : isWordChar a = true) : pairVal a '*' = 1 := by
  have h1 : ('*' == '*') = true := by decide
  have h2 : isWordChar '*' = false := by decide
  simp [pairVal, h1, h2, ha]

theorem pairVal_star_word (b : Char) (hb : isWordChar b = true) : pairVal '*' b = 1 := by
  have h1 : ('*' == '*') = true := by decide
  have h2 : isWordChar '*' = false := by decide
  simp [pairVal, h1, h2, hb]

/-- Inserting a space between two adjacent characters removes exactly the
pairs the two characters realized together: spaces realize no pair. -/
theorem pairCount_insert_space (u : List Char) (a w : Char) (v : List Char) :
    pairCount (u ++ a :: ' ' :: w :: v) + pairVal a w = pairCount (u ++ a :: w :: v) := by
  induction u with
  | nil =>
      simp only [List.nil_append, pairCount, pairVal_space_right, pairVal_space_left]
      omega
  | cons x u ih =>
      cases u with
      | nil =>
          simp only [List.cons_append, List.nil_append, List.append_eq, pairCount] at ih ⊢
          omega
      | cons y u' =>
          simp only [List.cons_append, List.append_eq, pairCount] at ih ⊢
          omega

theorem emphAt_shape (v : List Char) (l : Nat) (h : emphAt v = some l) :
    (l = 4 ∧ ∃ a b t, v = a :: '*' :: '*' :: b :: t ∧
      isWordChar a = true ∧ isWordChar b = true) ∨
    (l = 3 ∧ ∃ a b t, v = a :: '*' :: b :: t ∧
      isWordChar a = true ∧ isWordChar b = true) := by
  unfold emphAt at h
  split at h
  · split at h
    · rename_i hw
      rw [Bool.and_eq_true] at hw
      injection h with h
      exact Or.inl ⟨h.symm, _, _, _, rfl, hw.1, hw.2⟩
    · cases h
  · split at h
    · rename_i hw
      rw [Bool.and_eq_true] at hw
      injection h with h
      exact Or.inr ⟨h.symm, _, _, _, rfl, hw.1, hw.2⟩
    · cases h
  · cases h

theorem findEmph_decomp (s : List Char) :
    ∀ p l, findEmph s = some (p, l) →
      ∃ u v, s = u ++ v ∧ u.length = p ∧ emphAt v = some l := by
  induction s with
  | nil => intro p l h; simp [findEmph] at h
  | cons c rest ih =>
      intro p l h
      rw [findEmph] at h
      cases he : emphAt (c :: rest) with
      | some l0 =>
          rw [he] at h
          injection h with h
          rw [Prod.mk.injEq] at h
          exact ⟨[], c :: rest, rfl, h.1, by rw [he, h.2]⟩
      | none =>
          rw [he] at h
          rw [Option.map_eq_some'] at h
          obtain ⟨⟨q, l1⟩, hq, heq⟩ := h
          rw [Prod.mk.injEq] at heq
          simp only at heq
          obtain ⟨u, v, hs, hlen, hv⟩ := ih q l1 hq
          exact ⟨c :: u, v, by rw [hs]; simp, by simp [hlen, heq.1],
            by rw [hv, heq.2]⟩

theorem insertSpaceAt_append (u w : List Char) (k : Nat) :
    insertSpaceAt (u.length + k) (u ++ w) = u ++ insertSpaceAt k w := by
  induction u with
  | nil => simp
  | cons x u ih =>
      have harith : (x :: u).length + k = (u.length + k) + 1 := by simp; omega
      rw [harith]
      simp only [insertSpaceAt, List.cons_append, List.take_succ_cons, List.drop_succ_cons]
      simp only [insertSpaceAt] at ih
      rw [ih]

theorem insertSpaceAt_one (c : Char) (w : List Char) :
    insertSpaceAt 1 (c :: w) = c :: ' ' :: w := by
  simp [insertSpaceAt]

/-- Each iteration of the `_fix_markdown` loop strictly decreases
`pairCount`, whichever side of the asterisk run the space goes. -/
theorem pairCount_insert_lt (s : List Char) (p l : Nat) (b : Bool)
    (h : findEmph s = some (p, l)) :
    pairCount (insertSpaceAt (if b then p + 1 else p + l - 1) s) < pairCount s := by
  obtain ⟨u, v, hs, hlen, hv⟩ := findEmph_decomp s p l h
  subst hs
  subst hlen
  rcases emphAt_shape v l hv with ⟨hl, a, bb, t, hvv, ha, hb⟩ | ⟨hl, a, bb, t, hvv, ha, hb⟩
  · subst hvv
    subst hl
    cases b with
    | true =>
        rw [if_pos rfl]
        rw [show u.length + 1 = u.length + 1 from rfl, insertSpaceAt_append u _ 1,
          insertSpaceAt_one]
        have := pairCount_insert_space u a '*' ('*' :: bb :: t)
        rw [pairVal_word_star a ha] at this
        omega
    | false =>
        rw [if_neg (by simp)]
        have harith : u.length + 4 - 1 = (u ++ [a, '*']).length + 1 := by simp
        rw [harith]
        have hre : u ++ a :: '*' :: '*' :: bb :: t = (u ++ [a, '*']) ++ '*' :: bb :: t := by
          simp
        rw [hre, insertSpaceAt_append (u ++ [a, '*']) _ 1, insertSpaceAt_one]
        have := pairCount_insert_space (u ++ [a, '*']) '*' bb t
        rw [pairVal_star_word bb hb] at this
        simp only [List.append_assoc, List.cons_append, List.nil_append] at this ⊢
        omega
  · subst hvv
    subst hl
    cases b with
    | true =>
        rw [if_pos rfl]
        rw [insertSpaceAt_append u _ 1, insertSpaceAt_one]
        have := pairCount_insert_space u a '*' (bb :: t)
        rw [pairVal_word_star a ha] at this
        omega
    | false =>
        rw [if_neg (by simp)]
        have harith : u.length + 3 - 1 = (u ++ [a]).length + 1 := by simp
        rw [harith]
        have hre : u ++ a :: '*' :: bb :: t = (u ++ [a]) ++ '*' :: bb :: t := by
          simp
        rw [hre, insertSpaceAt_append (u ++ [a]) _ 1, insertSpaceAt_one]
        have := pairCount_insert_space (u ++ [a]) '*' bb t
        rw [pairVal_star_word bb hb] at this
        simp only [List.append_assoc, List.cons_append, List.nil_append] at this ⊢
        omega

/-- The `while` loop of `_fix_markdown`: on each leftmost match insert a
space after the first word character (opening side) or before the final
word character (closing side), alternating.  The `fuel` argument keeps
the recursion structural; by `pairCount_insert_lt` every iteration
strictly decreases `pairCount`, so starting with `pairCount s + 1` fuel
never exhausts it (`fixMarkdownGo_fuel` below makes this precise). -/
def fixMarkdownGo : Nat → Bool → List Char → List Char
  | 0, _, s => s
  | fuel + 1, isOpeningAsterisk, s =>
      match findEmph s with
      | none => s
      | some (p, l) =>
          fixMarkdownGo fuel (!isOpeningAsterisk)
            (insertSpaceAt (if isOpeningAsterisk then p + 1 else p + l - 1) s)

/-- `_fix_markdown`. -/
def fixMarkdown (originalMessage : List Char) : List Char :=
  fixMarkdownGo (pairCount originalMessage + 1) true originalMessage

/-- The fuel is irrelevant above the `pairCount` measure: the loop reaches
its fixed point first.  In particular `fixMarkdown` computes the limit of
the rewriting loop, i.e. the loop of `_fix_markdown` terminates. -/
theorem fixMarkdownGo_fuel (fuel1 : Nat) : ∀ fuel2 b s, pairCount s < fuel1 →
    pairCount s < fuel2 → fixMarkdownGo fuel1 b s = fixMarkdownGo fuel2 b s := by
  induction fuel1 with
  | zero => intro fuel2 b s h1; omega
  | succ f1 ih =>
      intro fuel2 b s h1 h2
      cases fuel2 with
      | zero => omega
      | succ f2 =>
          rw [fixMarkdownGo, fixMarkdownGo]
          cases hm : findEmph s with
          | none => rfl
          | some pl =>
              have hlt := pairCount_insert_lt s pl.1 pl.2 b (by rw [hm])
              exact ih f2 (!b)
                (insertSpaceAt (if b then pl.1 + 1 else pl.1 + pl.2 - 1) s)
                (by omega) (by omega)

/-- Word-ness of an optional neighbouring character; string ends count as
non-word for `\b`. -/
def wordness : Option Char → Bool
  | none => false
  | some c => isWordChar c

/-- Zero-width `\b` between two (optional) characters. -/
def isBoundary (a b : Option Char) : Bool := wordness a != wordness b

/-- Scanner for `re.sub(rf"\b{re.escape(name)}\b", sub, s)` with the
non-empty literal name `n0 :: ns`: replace each occurrence flanked by word
boundaries, continuing after the occurrence; `prev` is the original
character before the scan position and a positive `skip` means the
scanner is inside the tail of a replaced occurrence (`prev` then already
holds the last character of the name, the context for the next `\b`). -/
def subWordGo (n0 : Char) (ns sub : List Char) : Nat → Option Char → List Char → List Char
  | skip + 1, prev, _ :: rest => subWordGo n0 ns sub skip prev rest
  | _ + 1, _, [] => []
  | 0, _, [] => []
  | 0, prev, c :: rest =>
      if (n0 :: ns).isPrefixOf (c :: rest)
          && isBoundary prev (some c)
          && isBoundary (some (ns.getLastD n0)) (rest.drop ns.length).head? then
        sub ++ subWordGo n0 ns sub ns.length (some (ns.getLastD n0)) rest
      else
        c :: subWordGo n0 ns sub 0 (some c) rest

/-- Whole-word username substitution (line 86 of the source).  (Python
would treat an empty name as `\b\b`; the source only substitutes author
names, so the empty case is modelled as the identity.) -/
def subWordBound (name sub s : List Char) : List Char :=
  match name with
  | [] => s
  | n0 :: ns => subWordGo n0 ns sub 0 none s

/-! ## Forum thread processing (`RpForumsWritingTask.__iter__`) -/

/-- Content-type tag of a thread (`RpType` from the dataset module;
modelled from the spec: the dataset loaders are external collaborators). -/
inductive RpType
  | RP
  | ERP
  | MIXED
deriving DecidableEq

structure ForumMessage where
  author : List Char
  message : List Char
deriving DecidableEq

structure ForumThread where
  threadName : List Char
  contentType : RpType
  sourceFile : List Char
  messages : List ForumMessage
deriving DecidableEq

/-- The thread-name markers of lines 25-30 of the source. -/
def oocThreadMarkers : List (List Char) :=
  [str "ooc", str "o.o.c", str "character sheet", str "character profile",
   str "character list", str "character roster"]

def threadNameFiltered (name : List Char) : Bool :=
  oocThreadMarkers.any fun marker => containsL marker (lowerL name)

/-- Distinct authors.  The source builds a Python `set` (iteration order
unspecified); modelled as first-occurrence order, which is one legal
order and the only thing any claim depends on. -/
def dedupKeepFirst (l : List (List Char)) : List (List Char) :=
  l.foldl (fun acc a => if a ∈ acc then acc else acc ++ [a]) []

/-- `username_substitutions`: author name to `{{char_N}}` placeholder. -/
def usernameSubstitutions (authors : List (List Char)) : List (List Char × List Char) :=
  (dedupKeepFirst authors).enum.map fun ia =>
    (ia.2, str "\x7b\x7bchar_" ++ (Nat.repr ia.1).data ++ str "\x7d\x7d")

/-- `"<br/><br/>"`. -/
def brDelimiter : List Char := str "<br/><br/>"

/-- The per-chunk pipeline of lines 73-87 of the source: `markdownify`
(the external collaborator `md`), trailing-whitespace / bad-line removal,
Markdown emphasis repair, blank-line collapsing, then the username
substitutions in order. -/
def processChunk (md : List Char → List Char) (subs : List (List Char × List Char))
    (message : List Char) : List Char :=
  let c1 := md message
  let c2 := removeTrailingWhitespaceAndBadLines c1
  let c3 := fixMarkdown c2
  let c4 := collapseNewlines2 c3
  subs.foldl (fun acc ns => subWordBound ns.1 ns.2 acc) c4

/-- The label-assignment policy of lines 92-109 of the source. -/
def turnKindFor (prevUtterance cleaned : List Char) : TurnKind :=
  if notUsableAsTrainingLabel cleaned then .USER
  else if seemsToHaveOocTalk cleaned && !seemsToHaveOocTalk prevUtterance then .USER
  else .MODEL

/-- `turns[-1].utterance`; the source only evaluates this with a
non-empty turn list (it always starts from the system turn). -/
def lastUtterance (turns : List Turn) : List Char :=
  match turns.getLast? with
  | some t => t.utterance
  | none => []

/-- The chunk loop (lines 69-112): clean each chunk, decide its kind from
the previous turn, append. -/
def appendChunkTurns (md : List Char → List Char) (subs : List (List Char × List Char))
    (turns : List Turn) (chunks : List (List Char)) : List Turn :=
  chunks.foldl (fun acc chunk =>
    let cleaned := processChunk md subs chunk
    acc ++ [⟨cleaned, turnKindFor (lastUtterance acc) cleaned⟩]) turns

/-- The message loop (lines 55-112).  `targets msgIdx` models the
per-message `random.randint(200, 600)` draw. -/
def processMessages (md : List Char → List Char) (subs : List (List Char × List Char))
    (targets : Nat → Nat) : Nat → List Turn → List (List Char) → Except Unit (List Turn)
  | _, turns, [] => .ok turns
  | msgIdx, turns, msg :: rest =>
      match cleanForumMessage msg with
      | .error e => .error e
      | .ok cleaned =>
          let chunks := splitMessage cleaned (targets msgIdx) brDelimiter
          processMessages md subs targets (msgIdx + 1)
            (appendChunkTurns md subs turns chunks) rest

/-- `RpForumsWritingTask.__iter__` for one thread: `none` when the thread
is filtered out, `some (.error ())` when a message fails the URL
assertion, otherwise the episode.  `md` is the external `markdownify`
collaborator; `sysPromptTemplate` and `contentTypePrompt` model the two
`random.choice` draws of lines 47-49. -/
def processThread (md : List Char → List Char) (sysPromptTemplate contentTypePrompt : List Char)
    (targets : Nat → Nat) (thread : ForumThread) : Option (Except Unit Episode) :=
  if threadNameFiltered thread.threadName then none
  else if thread.messages.length < 2 then none
  else
    let subs := usernameSubstitutions (thread.messages.map (·.author))
    let sysPrompt :=
      replaceAllL (str "\x7b\x7bcontent_type_str\x7d\x7d") contentTypePrompt sysPromptTemplate
    let systemTurn : Turn := ⟨sysPrompt, .SYSTEM⟩
    match processMessages md subs targets 0 [systemTurn] (thread.messages.map (·.message)) with
    | .error e => some (.error e)
    | .ok turns =>
        some (.ok ⟨turns, str "rp-" ++ thread.sourceFile ++ str "-" ++ thread.threadName⟩)

/-! ## Helper lemmas -/

/-- Word-counting state after scanning a string. -/
def wcState : Bool → List Char → Bool
  | i, [] => i
  | _, c :: rest => wcState (!isPySpace c) rest

theorem wcAux_append (a : List Char) :
    ∀ (b : List Char) (i : Bool), wcAux i (a ++ b) = wcAux i a + wcAux (wcState i a) b := by
  induction a with
  | nil => intro b i; simp [wcAux, wcState]
  | cons c a ih =>
      intro b i
      simp only [List.cons_append, wcAux, wcState, List.append_eq]
      cases hc : isPySpace c with
      | false =>
          simp only [Bool.false_eq_true, if_false, Bool.not_false]
          rw [ih b true]
          omega
      | true =>
          simp only [if_true, Bool.not_true]
          exact ih b false

theorem wcAux_state_bounds (b : List Char) :
    wcAux true b ≤ wcAux false b ∧ wcAux false b ≤ wcAux true b + 1 := by
  induction b with
  | nil => simp [wcAux]
  | cons c rest ih =>
      simp only [wcAux]
      cases hc : isPySpace c <;> simp <;> omega

theorem wordCount_glue_ge (a d b : List Char) :
    wordCount a + wordCount b ≤ wordCount (a ++ d ++ b) + 1 := by
  have h1 : wcAux false (a ++ (d ++ b)) =
      wcAux false a + wcAux (wcState false a) (d ++ b) := wcAux_append a (d ++ b) false
  have h2 : wcAux (wcState false a) (d ++ b) =
      wcAux (wcState false a) d + wcAux (wcState (wcState false a) d) b :=
    wcAux_append d b (wcState false a)
  rw [h2] at h1
  have h3 := wcAux_state_bounds b
  have h4 : wcAux false b ≤ wcAux (wcState (wcState false a) d) b + 1 := by
    cases wcState (wcState false a) d <;> omega
  simp only [wordCount, List.append_assoc]
  omega

theorem replaceSkip_not_present (p : Char) (ps rep : List Char) :
    ∀ s : List Char, p ∉ s → replaceSkip (p :: ps) rep 0 s = s := by
  intro s
  induction s with
  | nil => intro _; rfl
  | cons c rest ih =>
      intro hmem
      rw [replaceSkip]
      have hpre : (p :: ps).isPrefixOf (c :: rest) = false := by
        cases hp : (p :: ps).isPrefixOf (c :: rest) with
        | true =>
            have := List.isPrefixOf_iff_prefix.mp hp
            obtain ⟨t, ht⟩ := this
            simp only [List.cons_append] at ht
            exact absurd (ht ▸ List.mem_cons_self p _) (by simp_all)
        | false => rfl
      rw [hpre]
      simp only [Bool.false_eq_true, if_false]
      rw [ih (fun hm => hmem (List.mem_cons_of_mem c hm))]

theorem lineSansTokens_no_lt (line : List Char) (h : '<' ∉ line) :
    lineSansTokens line = line := by
  have hs : startOfTextTok = '<' :: str "|startoftext|>" := by decide
  have he : endOfTextTok = '<' :: str "|endoftext|>" := by decide
  unfold lineSansTokens
  rw [hs, he]
  simp only [replaceAllL]
  rw [replaceSkip_not_present _ _ _ _ h, replaceSkip_not_present _ _ _ _ h]

/-- `joinL` over a cons with a non-empty tail. -/
theorem joinL_cons (d x : List Char) (L : List (List Char)) (h : L ≠ []) :
    joinL d (x :: L) = x ++ d ++ joinL d L := by
  cases L with
  | nil => exact absurd rfl h
  | cons y rest => rfl

theorem splitOnGo_ne_nil (pat : List Char) :
    ∀ (s acc : List Char) (skip : Nat), splitOnGo pat skip acc s ≠ [] := by
  intro s
  induction s with
  | nil => intro acc skip; cases skip <;> simp [splitOnGo]
  | cons c rest ih =>
      intro acc skip
      cases skip with
      | zero =>
          rw [splitOnGo]
          split
          · simp
          · exact ih (c :: acc) 0
      | succ k => exact ih acc k

theorem isPrefixOf_take_drop (pat s : List Char) (h : pat.isPrefixOf s = true) :
    pat ++ s.drop pat.length = s := by
  have hp := List.isPrefixOf_iff_prefix.mp h
  obtain ⟨t, ht⟩ := hp
  subst ht
  rw [List.drop_left]

theorem splitOnGo_join (p : Char) (ps : List Char) :
    ∀ (s : List Char) (skip : Nat) (acc : List Char),
      joinL (p :: ps) (splitOnGo (p :: ps) skip acc s) = acc.reverse ++ s.drop skip := by
  intro s
  induction s with
  | nil =>
      intro skip acc
      cases skip <;> simp [splitOnGo, joinL]
  | cons c rest ih =>
      intro skip acc
      cases skip with
      | zero =>
          rw [splitOnGo]
          split
          · rename_i hpre
            rw [joinL_cons _ _ _ (splitOnGo_ne_nil _ _ _ _), ih]
            simp only [List.reverse_nil, List.nil_append, List.drop_zero]
            have := isPrefixOf_take_drop (p :: ps) (c :: rest) hpre
            simp only [List.length_cons, List.cons_append] at this ⊢
            rw [List.append_assoc]
            simp only [List.drop_succ_cons] at this ⊢
            conv_rhs => rw [← this]
            simp [Nat.add_sub_cancel]
          · rw [ih]
            simp
      | succ k =>
          rw [splitOnGo, ih]
          simp

theorem splitOnL_join (d s : List Char) (h : d ≠ []) :
    joinL d (splitOnL d s) = s := by
  cases d with
  | nil => exact absurd rfl h
  | cons p ps =>
      rw [splitOnL, splitOnGo_join]
      simp

theorem splitOnL_ne_nil (d s : List Char) : splitOnL d s ≠ [] := by
  cases d with
  | nil => simp [splitOnL]
  | cons p ps => exact splitOnGo_ne_nil (p :: ps) s [] 0

theorem mergeChunks_ne_nil (target : Nat) (d : List Char) :
    ∀ (rest : List (List Char)) (cur : List Char), mergeChunks target d cur rest ≠ [] := by
  intro rest
  induction rest with
  | nil => intro cur; simp [mergeChunks]
  | cons m rest ih =>
      intro cur
      rw [mergeChunks]
      split
      · simp
      · exact ih (cur ++ d ++ m)

theorem mergeChunks_join (target : Nat) (d : List Char) :
    ∀ (rest : List (List Char)) (cur : List Char),
      joinL d (mergeChunks target d cur rest) = joinL d (cur :: rest) := by
  intro rest
  induction rest with
  | nil => intro cur; rfl
  | cons m rest ih =>
      intro cur
      rw [mergeChunks]
      split
      · rw [joinL_cons _ _ _ (mergeChunks_ne_nil _ _ _ _), ih,
          joinL_cons _ _ _ (by simp : (m :: rest : List (List Char)) ≠ [])]
      · rw [ih]
        cases rest with
        | nil => simp [joinL, List.append_assoc]
        | cons r rs =>
            rw [joinL_cons _ _ _ (by simp : (m :: r :: rs : List (List Char)) ≠ []),
              joinL_cons _ _ _ (by simp : (r :: rs : List (List Char)) ≠ []),
              joinL_cons _ _ _ (by simp : (r :: rs : List (List Char)) ≠ [])]
            simp [List.append_assoc]

/-- The loop of `fixMarkdown` always reaches a match-free fixed point
within its fuel. -/
theorem fixMarkdownGo_no_match (fuel : Nat) :
    ∀ (b : Bool) (s : List Char), pairCount s < fuel →
      findEmph (fixMarkdownGo fuel b s) = none := by
  induction fuel with
  | zero => intro b s h; omega
  | succ f ih =>
      intro b s h
      rw [fixMarkdownGo]
      cases hm : findEmph s with
      | none => exact hm
      | some pl =>
          have hlt := pairCount_insert_lt s pl.1 pl.2 b (by rw [hm])
          exact ih (!b) _ (by omega)

/-- `appendChunkTurns` only appends: the incoming turn list is preserved
as a prefix. -/
theorem appendChunkTurns_prefix (md : List Char → List Char)
    (subs : List (List Char × List Char)) :
    ∀ (chunks : List (List Char)) (turns : List Turn),
      ∃ suffix, appendChunkTurns md subs turns chunks = turns ++ suffix := by
  intro chunks
  induction chunks with
  | nil => intro turns; exact ⟨[], by simp [appendChunkTurns]⟩
  | cons ch chs ih =>
      intro turns
      obtain ⟨s2, hs2⟩ := ih (turns ++
        [⟨processChunk md subs ch, turnKindFor (lastUtterance turns) (processChunk md subs ch)⟩])
      have hstep : appendChunkTurns md subs turns (ch :: chs) =
          appendChunkTurns md subs (turns ++
            [⟨processChunk md subs ch,
              turnKindFor (lastUtterance turns) (processChunk md subs ch)⟩]) chs := rfl
      exact ⟨_, by rw [hstep, hs2, List.append_assoc]⟩

/-- `processMessages` only appends to the turn list it is given. -/
theorem processMessages_prefix (md : List Char → List Char)
    (subs : List (List Char × List Char)) (targets : Nat → Nat) :
    ∀ (msgs : List (List Char)) (idx : Nat) (turns res : List Turn),
      processMessages md subs targets idx turns msgs = .ok res →
      ∃ suffix, res = turns ++ suffix := by
  intro msgs
  induction msgs with
  | nil =>
      intro idx turns res h
      simp only [processMessages] at h
      cases h
      exact ⟨[], by simp⟩
  | cons msg rest ih =>
      intro idx turns res h
      rw [processMessages] at h
      cases hm : cleanForumMessage msg with
      | error e => rw [hm] at h; cases h
      | ok cleaned =>
          rw [hm] at h
          obtain ⟨s2, hs2⟩ := ih (idx + 1) _ res h
          obtain ⟨s1, hs1⟩ := appendChunkTurns_prefix md subs
            (splitMessage cleaned (targets idx) brDelimiter) turns
          exact ⟨s1 ++ s2, by rw [hs2, hs1, List.append_assoc]⟩

/-- If `processMessages` succeeds, every message of the batch passed its
URL assertion. -/
theorem processMessages_ok_clean (md : List Char → List Char)
    (subs : List (List Char × List Char)) (targets : Nat → Nat) :
    ∀ (msgs : List (List Char)) (idx : Nat) (turns res : List Turn),
      processMessages md subs targets idx turns msgs = .ok res →
      ∀ m ∈ msgs, ∃ c, cleanForumMessage m = .ok c := by
  intro msgs
  induction msgs with
  | nil => intro idx turns res _ m hm; cases hm
  | cons msg rest ih =>
      intro idx turns res h m hm
      rw [processMessages] at h
      cases hc : cleanForumMessage msg with
      | error e => rw [hc] at h; cases h
      | ok cleaned =>
          rw [hc] at h
          rcases List.mem_cons.mp hm with rfl | hmem
          · exact ⟨cleaned, hc⟩
          · exact ih (idx + 1) _ res h m hmem

/-- If the cleaning stages return normally, the URL assertion guarantees
the cleaned text holds neither URL scheme substring. -/
theorem cleanForumMessage_ok_no_url (m c : List Char) (h : cleanForumMessage m = .ok c) :
    containsL (str "http://") c = false ∧ containsL (str "https://") c = false := by
  simp only [cleanForumMessage] at h
  split at h
  · cases h
  · split at h
    · cases h
    · rename_i hcond
      injection h with h
      subst h
      simp only [Bool.or_eq_true, not_or, Bool.not_eq_true] at hcond
      exact hcond

/-! ## The claims -/

/-- Claim C1: for every forum message processed without raising, after the
cleaning stages (`_fix_style_and_encoding_issues`, `_remove_bad_html_tags`,
`_remove_links`) neither `"http://"` nor `"https://"` occurs in the
cleaned text; in particular, whenever the thread processor emits an
episode, every one of its messages passed the URL assertion with a
URL-free cleaned text.  A surviving URL makes the processing fail with
the assertion (`.error ()`) instead of emitting. -/
theorem c1_no_url_survives_cleaning :
    (∀ m c, cleanForumMessage m = .ok c →
        containsL (str "http://") c = false ∧ containsL (str "https://") c = false) ∧
    (∀ (md : List Char → List Char) (sysT cpT : List Char) (targets : Nat → Nat)
        (thread : ForumThread) (ep : Episode),
        processThread md sysT cpT targets thread = some (.ok ep) →
        ∀ fm ∈ thread.messages, ∃ c, cleanForumMessage fm.message = .ok c ∧
          containsL (str "http://") c = false ∧ containsL (str "https://") c = false) := by
  constructor
  · exact cleanForumMessage_ok_no_url
  · intro md sysT cpT targets thread ep h fm hfm
    simp only [processThread] at h
    split at h
    · cases h
    · split at h
      · cases h
      · split at h
        · cases h
        · rename_i turns hok
          obtain ⟨c, hc⟩ := processMessages_ok_clean md _ targets _ 0 _ turns hok
            fm.message (List.mem_map_of_mem (·.message) hfm)
          exact ⟨c, hc, cleanForumMessage_ok_no_url _ _ hc⟩

/-- Witness for C1 at a concrete message: the URL is removed and the
guarantee applies. -/
theorem c1_witness :
    cleanForumMessage (str "see http://foo.bar ok") = .ok (str "see ok") ∧
    containsL (str "http://") (str "see ok") = false ∧
    containsL (str "https://") (str "see ok") = false :=
  ⟨rfl, (c1_no_url_survives_cleaning.1 (str "see http://foo.bar ok") (str "see ok") rfl).1,
    (c1_no_url_survives_cleaning.1 (str "see http://foo.bar ok") (str "see ok") rfl).2⟩

set_option maxRecDepth 40000 in
/-- Claim C2 (the code contradicts it): a message needing five removal
passes for `blockquote` is fully cleaned in five passes and returns
normally; the `cleaning_passes` counter of the source is initialized to 0
and never incremented, so the `assert cleaning_passes < 4` can never
fire.  The claim (and the spec) say the fifth pass must be a fatal
assertion failure. -/
theorem c2_pass_limit_never_triggers :
    removeHtmlTagLoop (str "blockquote") 0 0
        ((str "<blockquote>a</blockquote><blockquote>b</blockquote><blockquote>c</blockquote><blockquote>d</blockquote><blockquote>e</blockquote>").length + 1)
        (str "<blockquote>a</blockquote><blockquote>b</blockquote><blockquote>c</blockquote><blockquote>d</blockquote><blockquote>e</blockquote>") =
      .ok ([], 5) ∧
    removeHtmlTag (str "<blockquote>a</blockquote><blockquote>b</blockquote><blockquote>c</blockquote><blockquote>d</blockquote><blockquote>e</blockquote>")
        (str "blockquote") = .ok [] :=
  ⟨rfl, rfl⟩

/-- Every episode of the adventure iterator starts with the sampled
system turn. -/
theorem aidungeonIterAux_first_system (sysPrompt : Nat → List Char) :
    ∀ (lines : List (List Char)) (idx : Nat) (cur : List Char) (ep : Episode),
      ep ∈ aidungeonIterAux sysPrompt idx cur lines →
      ∃ t rest, ep.turns = t :: rest ∧ t.kind = .SYSTEM := by
  intro lines
  induction lines with
  | nil => intro idx cur ep h; cases h
  | cons line rest ih =>
      intro idx cur ep h
      rw [aidungeonIterAux] at h
      split at h
      · rcases List.mem_cons.mp h with rfl | hmem
        · exact ⟨_, _, rfl, rfl⟩
        · exact ih (idx + 1) line ep hmem
      · exact ih idx (cur ++ line) ep h

/-- Claim C3: every episode yielded by either pipeline has a non-empty
turn list whose first turn is the SYSTEM turn. -/
theorem c3_first_turn_is_system :
    (∀ (sysPrompt : Nat → List Char) (lines : List (List Char)) (ep : Episode),
        ep ∈ aidungeonIter sysPrompt lines →
        ∃ t rest, ep.turns = t :: rest ∧ t.kind = .SYSTEM) ∧
    (∀ (md : List Char → List Char) (sysT cpT : List Char) (targets : Nat → Nat)
        (thread : ForumThread) (ep : Episode),
        processThread md sysT cpT targets thread = some (.ok ep) →
        ∃ t rest, ep.turns = t :: rest ∧ t.kind = .SYSTEM) := by
  constructor
  · intro sysPrompt lines ep h
    exact aidungeonIterAux_first_system sysPrompt lines 0 [] ep h
  · intro md sysT cpT targets thread ep h
    simp only [processThread] at h
    split at h
    · cases h
    · split at h
      · cases h
      · split at h
        · cases h
        · rename_i turns hok
          injection h with h
          injection h with h
          obtain ⟨suffix, hsuf⟩ := processMessages_prefix md _ targets _ 0 _ turns hok
          subst h
          exact ⟨_, suffix, by rw [hsuf]; rfl, rfl⟩

/-- Witness for C3: a concrete adventure run and a concrete two-message
thread, each yielding an episode that starts with the SYSTEM turn. -/
theorem c3_witness :
    (∃ t rest, (⟨[⟨str "PROMPT", .SYSTEM⟩], str "ai-dungeon-0"⟩ : Episode).turns = t :: rest ∧
      t.kind = .SYSTEM) ∧
    (∃ ep, processThread id (str "Roleplay.") (str "Keep it SFW.") (fun _ => 300)
        ⟨str "The Tavern", .RP, str "f1",
          [⟨str "Alice", str "Hello there friend."⟩, ⟨str "Bob", str "Greetings to you."⟩]⟩ =
        some (.ok ep) ∧
      ∃ t rest, ep.turns = t :: rest ∧ t.kind = .SYSTEM) :=
  by
  constructor
  · exact c3_first_turn_is_system.1 (fun _ => str "PROMPT")
      [str "<|startoftext|>x", str "> go"] _ (by decide)
  · obtain ⟨ep, hep⟩ : ∃ ep, processThread id (str "Roleplay.") (str "Keep it SFW.")
        (fun _ => 300)
        ⟨str "The Tavern", .RP, str "f1",
          [⟨str "Alice", str "Hello there friend."⟩, ⟨str "Bob", str "Greetings to you."⟩]⟩ =
        some (.ok ep) := ⟨_, rfl⟩
    exact ⟨ep, hep, c3_first_turn_is_system.2 id (str "Roleplay.") (str "Keep it SFW.")
      (fun _ => 300) _ ep hep⟩

/-- Claim C4: the chunk `"(OOC: let's skip ahead)"` triggers no
unusable-signal check and reads as OOC; it is labeled USER exactly when
the previous turn's utterance does not read as OOC, and MODEL when it
does. -/
theorem c4_ooc_chunk_label_depends_on_previous_turn :
    notUsableAsTrainingLabel (str "(OOC: let" ++ '\'' :: str "s skip ahead)") = false ∧
    seemsToHaveOocTalk (str "(OOC: let" ++ '\'' :: str "s skip ahead)") = true ∧
    ∀ prev : List Char,
      (seemsToHaveOocTalk prev = false →
        turnKindFor prev (str "(OOC: let" ++ '\'' :: str "s skip ahead)") = .USER) ∧
      (seemsToHaveOocTalk prev = true →
        turnKindFor prev (str "(OOC: let" ++ '\'' :: str "s skip ahead)") = .MODEL) := by
  have hn : notUsableAsTrainingLabel (str "(OOC: let" ++ '\'' :: str "s skip ahead)") = false := by
    decide
  have hs : seemsToHaveOocTalk (str "(OOC: let" ++ '\'' :: str "s skip ahead)") = true := by
    decide
  refine ⟨hn, hs, fun prev => ⟨fun hp => ?_, fun hp => ?_⟩⟩
  · simp [turnKindFor, hn, hs, hp]
  · simp [turnKindFor, hn, hs, hp]

/-- Witness for C4: concrete previous turns on both sides. -/
theorem c4_witness :
    turnKindFor (str "Hello there.") (str "(OOC: let" ++ '\'' :: str "s skip ahead)") = .USER ∧
    turnKindFor (str "(Sure thing!)") (str "(OOC: let" ++ '\'' :: str "s skip ahead)") = .MODEL :=
  ⟨(c4_ooc_chunk_label_depends_on_previous_turn.2.2 (str "Hello there.")).1 (by decide),
    (c4_ooc_chunk_label_depends_on_previous_turn.2.2 (str "(Sure thing!)")).2 (by decide)⟩

/-- Narration lines whose running word count first reaches 300 at the
very last line produce exactly one MODEL turn and leave nothing behind. -/
theorem convertAux_narration_flush (lastLine : List Char)
    (hlast_pre : userMarker.isPrefixOf lastLine = false)
    (hlast_wc : wordCount (lineSansTokens lastLine) = 1) :
    ∀ (narr : List (List Char)) (cur : List Char) (wc : Nat),
      (∀ l ∈ narr, userMarker.isPrefixOf l = false) →
      wc + (narr.map fun l => wordCount (lineSansTokens l)).sum = 299 →
      ∃ u, convertAux cur wc (narr ++ [lastLine]) = [⟨u, .MODEL⟩] := by
  intro narr
  induction narr with
  | nil =>
      intro cur wc _ hsum
      simp only [List.map_nil, List.sum_nil, Nat.add_zero] at hsum
      subst hsum
      simp only [List.nil_append, convertAux, hlast_pre, Bool.false_eq_true, if_false,
        hlast_wc]
      rw [if_pos (by simp [MIN_WORD_COUNT_PER_MODEL_TURN])]
      exact ⟨_, rfl⟩
  | cons l ls ih =>
      intro cur wc hpre hsum
      simp only [List.map_cons, List.sum_cons] at hsum
      simp only [List.cons_append, convertAux, hpre l (List.mem_cons_self l ls),
        Bool.false_eq_true, if_false]
      rw [if_neg (by simp only [MIN_WORD_COUNT_PER_MODEL_TURN]; omega)]
      exact ih _ _ (fun x hx => hpre x (List.mem_cons_of_mem l hx)) (by omega)

/-- Claim C5: a story of one `"> "` line, narration totaling 299 words and
one final 1-word line converts to exactly one USER turn followed by
exactly one MODEL turn (the 300-word threshold is reached inclusively and
the buffer is flushed). -/
theorem c5_threshold_boundary (story userLine lastLine : List Char) (narr : List (List Char))
    (hsplit : splitlinesL story = userLine :: (narr ++ [lastLine]))
    (hu_pre : userMarker.isPrefixOf userLine = true)
    (hu_ne : stripL (replaceAllL userMarker [] userLine) ≠ [])
    (hnarr_pre : ∀ l ∈ narr, userMarker.isPrefixOf l = false)
    (hnarr_wc : (narr.map fun l => wordCount (lineSansTokens l)).sum = 299)
    (hlast_pre : userMarker.isPrefixOf lastLine = false)
    (hlast_wc : wordCount (lineSansTokens lastLine) = 1) :
    (convertStoryToTurns story).map Turn.kind = [.USER, .MODEL] := by
  rw [convertStoryToTurns, hsplit]
  simp only [convertAux, hu_pre, if_true]
  rw [if_neg hu_ne]
  obtain ⟨u, hu⟩ := convertAux_narration_flush lastLine hlast_pre hlast_wc narr [] 0
    hnarr_pre (by omega)
  rw [hu]
  rfl

set_option maxRecDepth 200000 in
/-- Witness for C5: `"> go north"`, one narration line of 299 one-letter
words, then the line `"end"`. -/
theorem c5_witness :
    (convertStoryToTurns (str "> go north" ++ '\n' :: joinL [' '] (List.replicate 299 ['w']) ++
      '\n' :: str "end")).map Turn.kind = [.USER, .MODEL] :=
  c5_threshold_boundary _ (str "> go north") (str "end")
    [joinL [' '] (List.replicate 299 ['w'])]
    (by decide) (by decide) (by decide) (by decide) (by decide) (by decide) (by decide)

/-- Claim C6: narration accumulated with any buffer state whose running
word count never reaches 300 produces no turn at all: the leftover buffer
is dropped at end-of-story. -/
theorem c6_leftover_buffer_dropped :
    (∀ (lines : List (List Char)) (cur : List Char) (wc : Nat),
        (∀ l ∈ lines, userMarker.isPrefixOf l = false) →
        wc + (lines.map fun l => wordCount (lineSansTokens l)).sum <
          MIN_WORD_COUNT_PER_MODEL_TURN →
        convertAux cur wc lines = []) ∧
    (∀ story : List Char,
        (∀ l ∈ splitlinesL story, userMarker.isPrefixOf l = false) →
        ((splitlinesL story).map fun l => wordCount (lineSansTokens l)).sum <
          MIN_WORD_COUNT_PER_MODEL_TURN →
        convertStoryToTurns story = []) := by
  have part1 : ∀ (lines : List (List Char)) (cur : List Char) (wc : Nat),
      (∀ l ∈ lines, userMarker.isPrefixOf l = false) →
      wc + (lines.map fun l => wordCount (lineSansTokens l)).sum <
        MIN_WORD_COUNT_PER_MODEL_TURN →
      convertAux cur wc lines = [] := by
    intro lines
    induction lines with
    | nil => intro cur wc _ _; rfl
    | cons l ls ih =>
        intro cur wc hpre hsum
        simp only [List.map_cons, List.sum_cons, MIN_WORD_COUNT_PER_MODEL_TURN] at hsum
        simp only [convertAux, hpre l (List.mem_cons_self l ls), Bool.false_eq_true, if_false]
        rw [if_neg (by simp only [MIN_WORD_COUNT_PER_MODEL_TURN]; omega)]
        exact ih _ _ (fun x hx => hpre x (List.mem_cons_of_mem l hx))
          (by simp only [MIN_WORD_COUNT_PER_MODEL_TURN]; omega)
  exact ⟨part1, fun story hpre hsum => part1 (splitlinesL story) [] 0 hpre (by omega)⟩

/-- Witness for C6: a short narration-only story yields no turns. -/
theorem c6_witness :
    convertAux [] 0 [str "just a few words of narration"] = [] ∧
    convertStoryToTurns (str "just a few words of narration") = [] :=
  ⟨c6_leftover_buffer_dropped.1 [str "just a few words of narration"] [] 0
      (by decide) (by decide),
    c6_leftover_buffer_dropped.2 (str "just a few words of narration")
      (by decide) (by decide)⟩

/-- Counterexample to C7 as stated: on the line `"> say > hello"` the code
removes every occurrence of `"> "` (Python `str.replace` replaces all
occurrences), yielding `"say hello"`, not the line with only the leading
marker removed and trimmed (`"say > hello"`). -/
theorem c7_counterexample :
    convertStoryToTurns (str "> say > hello") = [⟨str "say hello", .USER⟩] ∧
    stripL ((str "> say > hello").drop 2) = str "say > hello" ∧
    (str "say hello" : List Char) ≠ str "say > hello" :=
  ⟨rfl, rfl, by decide⟩

/-- Claim C7 as amended: a story line beginning with `"> "` emits a USER
turn whose utterance is the line with every occurrence of the substring
`"> "` removed and surrounding whitespace trimmed; if that result is
empty, no turn is emitted.  The accumulated narration state is untouched
either way. -/
theorem c7_user_line_all_markers_removed (cur : List Char) (wc : Nat)
    (line : List Char) (rest : List (List Char))
    (h : userMarker.isPrefixOf line = true) :
    convertAux cur wc (line :: rest) =
      if stripL (replaceAllL userMarker [] line) = [] then convertAux cur wc rest
      else ⟨stripL (replaceAllL userMarker [] line), .USER⟩ :: convertAux cur wc rest := by
  simp only [convertAux, h, if_true]

/-- Witness for C7 (amended form) at a concrete line. -/
theorem c7_witness :
    convertAux [] 0 [str "> hi"] = [⟨str "hi", .USER⟩] := by
  rw [c7_user_line_all_markers_removed [] 0 (str "> hi") [] (by decide)]
  decide

/-- Claim C8: with chunk word counts `[50, 50, 50]` and target 120, the
first two chunks merge back (`50 + 50 ≤ 120`) and the third starts a new
chunk (the merged chunk has at least 99 words, so appending 50 more
exceeds 120), giving exactly two output chunks. -/
theorem c8_chunk_merging (c0 c1 c2 d msg : List Char)
    (hsplit : splitOnL d msg = [c0, c1, c2])
    (h0 : wordCount c0 = 50) (h1 : wordCount c1 = 50) (h2 : wordCount c2 = 50) :
    splitMessage msg 120 d = [c0 ++ d ++ c1, c2] := by
  rw [splitMessage, hsplit]
  have hge : 99 ≤ wordCount (c0 ++ d ++ c1) := by
    have := wordCount_glue_ge c0 d c1
    omega
  simp only [mergeChunks, h0, h1, h2]
  rw [if_neg (by omega), if_pos (by omega)]

set_option maxRecDepth 100000 in
/-- Witness for C8: three 50-word chunks joined with the `<br/><br/>`
delimiter. -/
theorem c8_witness :
    splitMessage (joinL brDelimiter [joinL [' '] (List.replicate 50 ['w']),
        joinL [' '] (List.replicate 50 ['w']), joinL [' '] (List.replicate 50 ['w'])])
      120 brDelimiter =
    [joinL [' '] (List.replicate 50 ['w']) ++ brDelimiter ++
        joinL [' '] (List.replicate 50 ['w']),
      joinL [' '] (List.replicate 50 ['w'])] :=
  c8_chunk_merging _ _ _ brDelimiter _ (by decide) (by decide) (by decide) (by decide)

/-- Claim C9: for a non-empty delimiter, re-joining the chunks produced
by `_split_message` with the delimiter restores the input exactly (no
text is lost, duplicated or reordered), and the chunk list is never
empty. -/
theorem c9_split_merge_roundtrip (s d : List Char) (target : Nat) (hd : d ≠ []) :
    joinL d (splitMessage s target d) = s ∧ splitMessage s target d ≠ [] := by
  constructor
  · rw [splitMessage]
    cases hsp : splitOnL d s with
    | nil => exact absurd hsp (splitOnL_ne_nil d s)
    | cons m rest =>
        rw [mergeChunks_join, ← hsp, splitOnL_join d s hd]
  · rw [splitMessage]
    cases hsp : splitOnL d s with
    | nil => exact absurd hsp (splitOnL_ne_nil d s)
    | cons m rest => exact mergeChunks_ne_nil target d rest m

/-- Witness for C9 at a concrete input. -/
theorem c9_witness :
    joinL [','] (splitMessage (str "ab,cd,ef") 1 [',']) = str "ab,cd,ef" ∧
    splitMessage (str "ab,cd,ef") 1 [','] ≠ [] :=
  c9_split_merge_roundtrip (str "ab,cd,ef") [','] 1 (by decide)

/-- Claim C10: `_fix_markdown` terminates on every input: its result
contains no further match of the emphasis regex, the fuel is irrelevant
once it exceeds the strictly-decreasing `pairCount` measure (the loop
reaches its fixed point first), each step inserts the space before the
marker (opening, odd matches) or after it (closing, even matches) while
alternating, and a match-free input is returned unchanged. -/
theorem c10_fix_markdown_terminates (s : List Char) :
    findEmph (fixMarkdown s) = none ∧
    (∀ (fuel : Nat) (b : Bool), pairCount s < fuel →
      fixMarkdownGo fuel b s = fixMarkdownGo (pairCount s + 1) b s) ∧
    (∀ (fuel : Nat) (b : Bool) (p l : Nat), findEmph s = some (p, l) →
      fixMarkdownGo (fuel + 1) b s =
        fixMarkdownGo fuel (!b) (insertSpaceAt (if b then p + 1 else p + l - 1) s)) ∧
    (findEmph s = none → fixMarkdown s = s) := by
  refine ⟨?_, ?_, ?_, ?_⟩
  · exact fixMarkdownGo_no_match _ true s (by omega)
  · intro fuel b h
    exact fixMarkdownGo_fuel fuel (pairCount s + 1) b s h (by omega)
  · intro fuel b p l h
    rw [fixMarkdownGo, h]
  · intro h
    rw [fixMarkdown, fixMarkdownGo, h]

/-- Witness for C10 at a malformed-emphasis input. -/
theorem c10_witness :
    findEmph (fixMarkdown (str "a*b*c")) = none ∧
    fixMarkdownGo 100 true (str "a*b*c") =
      fixMarkdownGo (pairCount (str "a*b*c") + 1) true (str "a*b*c") :=
  ⟨(c10_fix_markdown_terminates (str "a*b*c")).1,
    (c10_fix_markdown_terminates (str "a*b*c")).2.1 100 true (by decide)⟩

end Toolbox
